import Mathlib

/-!
Verification of the Mail-Organiser client logic.

The development shallowly embeds the data model from src/types.ts, the
View-Model Shaping operations from src/App.tsx (the sortedData memo and the
handleDeleteEmail handler) and the Extraction Contract pipeline from
src/services/geminiService.ts (getAiClient and organizeEmails).

Modelling conventions:
- JavaScript date parsing (new Date(s).getTime()) is environment behaviour,
  not repository code, so it is abstracted as a parameter
  parse : String -> Option Int, where none models a NaN timestamp
  (an unparsable date) and some t models a valid millisecond timestamp.
- Array.prototype.sort with a comparator cmp is required by ECMAScript
  (ES2019 and later) to be a stable sort; for a consistent comparator the
  result is the unique stable reordering that is sorted by the preorder
  fun a b => cmp a b <= 0.  It is therefore embedded as List.mergeSort,
  which is stable and sorts by exactly that Boolean relation.
- JSON.parse is a JavaScript built-in, abstracted as a parameter
  parseJson : String -> Option Json over an explicit Json value type;
  none models a thrown SyntaxError.
- The outbound generative-model call is an external collaborator; its
  outcome is a parameter callOutcome : Except String String (error message
  of a thrown transport failure, or the response text).  organizeEmails
  additionally returns the number of outbound calls performed, so that
  the claims about calling before/after failures are statable.
-/

namespace MailOrganiser

/-- Email record from src/types.ts. -/
structure Email where
  subject : String
  date : String
  summary : String
deriving DecidableEq

/-- OrganizedEmailGroup record from src/types.ts. -/
structure OrganizedEmailGroup where
  senderName : String
  senderEmail : String
  emails : List Email
deriving DecidableEq

/-- SortOrder from src/types.ts: the string union of newest and oldest. -/
inductive SortOrder where
  | newest
  | oldest
deriving DecidableEq

/-- Comparator passed to the intra-group emails sort, src/App.tsx lines
144-158.  Returns the JavaScript comparator value: negative keeps a before
b, positive puts a after b, zero leaves the pair unordered. -/
def emailCompare (parse : String → Option Int) (sortOrder : SortOrder)
    (a b : Email) : Int :=
  match parse a.date, parse b.date with
  | some timeA, some timeB =>
      match sortOrder with
      | SortOrder.newest => timeB - timeA
      | SortOrder.oldest => timeA - timeB
  | some _, none => -1
  | none, some _ => 1
  | none, none => 0

/-- Boolean ordering induced by emailCompare; a stable sort by this relation
is what Array.prototype.sort produces for that comparator. -/
def emailLe (parse : String → Option Int) (sortOrder : SortOrder)
    (a b : Email) : Bool :=
  emailCompare parse sortOrder a b ≤ 0

/-- Comparator passed to the across-groups sort, src/App.tsx lines 161-181.
The first email of each group (after the intra-group sort) supplies the key;
a group with no first email goes to the end. -/
def groupCompare (parse : String → Option Int) (sortOrder : SortOrder)
    (a b : OrganizedEmailGroup) : Int :=
  match a.emails.head?, b.emails.head? with
  | none, none => 0
  | none, some _ => 1
  | some _, none => -1
  | some firstEmailA, some firstEmailB =>
      match parse firstEmailA.date, parse firstEmailB.date with
      | some timeA, some timeB =>
          match sortOrder with
          | SortOrder.newest => timeB - timeA
          | SortOrder.oldest => timeA - timeB
      | some _, none => -1
      | none, some _ => 1
      | none, none => 0

/-- Boolean ordering induced by groupCompare. -/
def groupLe (parse : String → Option Int) (sortOrder : SortOrder)
    (a b : OrganizedEmailGroup) : Bool :=
  groupCompare parse sortOrder a b ≤ 0

/-- The map stage of sortedData (src/App.tsx lines 142-159): each group is
rebuilt with its emails sorted by the email comparator. -/
def sortGroupEmails (parse : String → Option Int) (sortOrder : SortOrder)
    (group : OrganizedEmailGroup) : OrganizedEmailGroup :=
  { group with emails := group.emails.mergeSort (emailLe parse sortOrder) }

/-- The sortedData memo, src/App.tsx lines 139-182 (for a present result):
sort the emails inside every group, then sort the groups by their first
email. -/
def sortedData (parse : String → Option Int) (sortOrder : SortOrder)
    (organizedData : List OrganizedEmailGroup) : List OrganizedEmailGroup :=
  let groupsWithSortedEmails := organizedData.map (sortGroupEmails parse sortOrder)
  groupsWithSortedEmails.mergeSort (groupLe parse sortOrder)

/-- The email removal inside handleDeleteEmail, src/App.tsx line 127:
group.emails.filter with the predicate index !== emailIndex, i.e. keep
every element whose position differs from emailIndex. -/
def filterIndexNe {α : Type} (xs : List α) (emailIndex : Nat) : List α :=
  ((xs.enum).filter (fun p => p.1 != emailIndex)).map Prod.snd

/-- The handleDeleteEmail state update, src/App.tsx lines 119-137 (for a
present result): rebuild every group whose senderEmail matches with the
email at emailIndex removed, then drop groups left with no emails. -/
def handleDeleteEmail (senderEmail : String) (emailIndex : Nat)
    (currentData : List OrganizedEmailGroup) : List OrganizedEmailGroup :=
  (currentData.map (fun group =>
      if group.senderEmail = senderEmail then
        { group with emails := filterIndexNe group.emails emailIndex }
      else group)).filter (fun group => 0 < group.emails.length)

/-- JSON values, used to model the parsed response of the model call. -/
inductive Json where
  | null
  | bool (b : Bool)
  | num (n : Int)
  | str (s : String)
  | arr (elements : List Json)
  | obj (fields : List (String × Json))

/-- Field lookup on a JSON object; none on other shapes. -/
def Json.getField (j : Json) (name : String) : Option Json :=
  match j with
  | Json.obj fields => (fields.find? (fun f => f.1 == name)).map Prod.snd
  | _ => none

/-- Whether a JSON value is an object carrying the given field. -/
def Json.hasField (j : Json) (name : String) : Bool :=
  (j.getField name).isSome

/-- Response-schema shapes, enough to embed the schema literal of
src/services/geminiService.ts lines 17-56 (descriptions elided). -/
inductive Schema where
  | string
  | array (items : Schema)
  | object (properties : List (String × Schema)) (required : List String)

/-- Declared required-field list of an object schema. -/
def Schema.requiredFields : Schema → List String
  | Schema.object _ required => required
  | _ => []

/-- Schema of one email item, src/services/geminiService.ts lines 34-51. -/
def emailItemSchema : Schema :=
  Schema.object
    [("subject", Schema.string), ("date", Schema.string), ("summary", Schema.string)]
    ["subject", "date", "summary"]

/-- Schema of one group item, src/services/geminiService.ts lines 20-54. -/
def groupItemSchema : Schema :=
  Schema.object
    [("senderName", Schema.string), ("senderEmail", Schema.string),
     ("emails", Schema.array emailItemSchema)]
    ["senderName", "senderEmail", "emails"]

/-- Top-level response schema, src/services/geminiService.ts lines 17-18. -/
def responseSchema : Schema := Schema.array groupItemSchema

/-- Whether a group element honours the required fields of the claim: the
three group fields are present, and, when the emails field is a JSON array,
every element of it carries subject, date and summary. -/
def groupJsonHasRequired (j : Json) : Bool :=
  (["senderName", "senderEmail", "emails"].all (fun n => j.hasField n)) &&
  (match j.getField "emails" with
   | some (Json.arr es) =>
       es.all (fun e => ["subject", "date", "summary"].all (fun n => e.hasField n))
   | _ => true)

/-- Model client handle; only its construction matters to the claims. -/
structure AiClient where
  apiKey : String
deriving DecidableEq

/-- Error message thrown by getAiClient when the API_KEY environment
variable is missing, src/services/geminiService.ts line 11. -/
def aiServiceErrorMessage : String :=
  "AI Service Error: The API_KEY environment variable is missing. Please ensure it\x27s configured to enable AI features."

/-- Message thrown on a non-array parsed response,
src/services/geminiService.ts line 91. -/
def unexpectedFormatMessage : String :=
  "AI returned data in an unexpected format."

/-- Generic user-facing failure message thrown by the catch clause,
src/services/geminiService.ts line 103. -/
def genericFailureMessage : String :=
  "Failed to organize emails. The AI model might be unable to process the input. Please try again with clearer email content."

/-- getAiClient, src/services/geminiService.ts lines 6-15.  cachedAi models
the module-level ai variable (null at module load, and it can only become
non-null after a call that saw the key present); apiKeyEnv models
process.env.API_KEY, where none and the empty string are both falsy in the
JavaScript guard. -/
def getAiClient (cachedAi : Option AiClient) (apiKeyEnv : Option String) :
    Except String AiClient :=
  match cachedAi with
  | some ai => Except.ok ai
  | none =>
      match apiKeyEnv with
      | none => Except.error aiServiceErrorMessage
      | some key =>
          if key = "" then Except.error aiServiceErrorMessage
          else Except.ok (AiClient.mk key)

/-- Body of the try block of organizeEmails, src/services/geminiService.ts
lines 75-94.  The second component counts outbound model calls (0 or 1).
callOutcome is the external outcome of client.models.generateContent:
a thrown transport or model error message, or the response text.
parseJson models JSON.parse, and jsonSyntaxErrorMessage the message of the
SyntaxError that JSON.parse throws on unparsable text. -/
def organizeEmailsTryBody (cachedAi : Option AiClient) (apiKeyEnv : Option String)
    (callOutcome : Except String String) (parseJson : String → Option Json)
    (jsonSyntaxErrorMessage : String) : Except String (List Json) × Nat :=
  match getAiClient cachedAi apiKeyEnv with
  | Except.error msg => (Except.error msg, 0)
  | Except.ok _client =>
      match callOutcome with
      | Except.error msg => (Except.error msg, 1)
      | Except.ok text =>
          match parseJson text.trim with
          | none => (Except.error jsonSyntaxErrorMessage, 1)
          | some parsedJson =>
              match parsedJson with
              | Json.arr elements => (Except.ok elements, 1)
              | _ => (Except.error unexpectedFormatMessage, 1)

/-- Character-level prefix test on strings, modelling the JavaScript
String.prototype.startsWith check of the catch clause; the messages
involved are ASCII, where byte-level and character-level prefixing agree. -/
def messageStartsWith (msg marker : String) : Bool :=
  marker.data.isPrefixOf msg.data

/-- organizeEmails, src/services/geminiService.ts lines 59-105.  The catch
clause re-throws an error whose message starts with the AI Service Error
marker unchanged and replaces every other failure with the generic
user-facing message. -/
def organizeEmails (cachedAi : Option AiClient) (apiKeyEnv : Option String)
    (callOutcome : Except String String) (parseJson : String → Option Json)
    (jsonSyntaxErrorMessage : String) : Except String (List Json) × Nat :=
  match organizeEmailsTryBody cachedAi apiKeyEnv callOutcome parseJson
      jsonSyntaxErrorMessage with
  | (Except.ok value, calls) => (Except.ok value, calls)
  | (Except.error msg, calls) =>
      if messageStartsWith msg "AI Service Error:" then (Except.error msg, calls)
      else (Except.error genericFailureMessage, calls)

/-- The email ordering is transitive. -/
theorem emailLe_trans (parse : String → Option Int) (o : SortOrder) :
    ∀ a b c : Email, emailLe parse o a b → emailLe parse o b c →
      emailLe parse o a c := by
  intro a b c hab hbc
  simp only [emailLe, emailCompare, decide_eq_true_eq] at hab hbc ⊢
  rcases hpa : parse a.date with _ | ta <;> rcases hpb : parse b.date with _ | tb <;>
    rcases hpc : parse c.date with _ | tc <;>
    cases o <;> simp_all <;> omega

/-- The email ordering is total. -/
theorem emailLe_total (parse : String → Option Int) (o : SortOrder) :
    ∀ a b : Email, emailLe parse o a b || emailLe parse o b a := by
  intro a b
  simp only [emailLe, emailCompare, Bool.or_eq_true, decide_eq_true_eq]
  rcases parse a.date with _ | ta <;> rcases parse b.date with _ | tb <;>
    cases o <;> simp <;> omega

/-- The group ordering is transitive. -/
theorem groupLe_trans (parse : String → Option Int) (o : SortOrder) :
    ∀ a b c : OrganizedEmailGroup, groupLe parse o a b → groupLe parse o b c →
      groupLe parse o a c := by
  intro a b c hab hbc
  simp only [groupLe, groupCompare, decide_eq_true_eq] at hab hbc ⊢
  rcases hha : a.emails.head? with _ | ea <;> rcases hhb : b.emails.head? with _ | eb <;>
    rcases hhc : c.emails.head? with _ | ec <;>
    try simp_all
  rcases hpa : parse ea.date with _ | ta <;> rcases hpb : parse eb.date with _ | tb <;>
    rcases hpc : parse ec.date with _ | tc <;>
    cases o <;> simp_all <;> omega

/-- The group ordering is total. -/
theorem groupLe_total (parse : String → Option Int) (o : SortOrder) :
    ∀ a b : OrganizedEmailGroup, groupLe parse o a b || groupLe parse o b a := by
  intro a b
  simp only [groupLe, groupCompare, Bool.or_eq_true, decide_eq_true_eq]
  rcases a.emails.head? with _ | ea <;> rcases b.emails.head? with _ | eb <;>
    try simp
  rcases parse ea.date with _ | ta <;> rcases parse eb.date with _ | tb <;>
    cases o <;> simp <;> omega

/-- Membership in the sorted result comes from a group of the input with its
emails sorted by the email ordering. -/
theorem mem_sortedData (parse : String → Option Int) (sortOrder : SortOrder)
    (organizedData : List OrganizedEmailGroup) (g : OrganizedEmailGroup)
    (hg : g ∈ sortedData parse sortOrder organizedData) :
    ∃ g₀ ∈ organizedData, g = sortGroupEmails parse sortOrder g₀ := by
  simp only [sortedData, List.mem_mergeSort, List.mem_map] at hg
  obtain ⟨g₀, hg₀, rfl⟩ := hg
  exact ⟨g₀, hg₀, rfl⟩

/-- Emails of every group of the sorted result are pairwise ordered by the
email ordering. -/
theorem sortedData_emails_pairwise (parse : String → Option Int)
    (sortOrder : SortOrder) (organizedData : List OrganizedEmailGroup)
    (g : OrganizedEmailGroup) (hg : g ∈ sortedData parse sortOrder organizedData) :
    g.emails.Pairwise (fun a b => emailLe parse sortOrder a b) := by
  obtain ⟨g₀, _, rfl⟩ := mem_sortedData parse sortOrder organizedData g hg
  exact List.sorted_mergeSort (emailLe_trans parse sortOrder)
    (emailLe_total parse sortOrder) g₀.emails

/-- C1 (confirmed): for every result and every sort order, after sorting,
within each group every email whose date parses to a valid time appears
before every email whose date is unparsable, regardless of whether the
order is newest or oldest.  Stated in contrapositive position form: once an
email at position i is unparsable, every email at a later position j is
unparsable too. -/
theorem C1_valid_dates_sort_before_unparsable
    (parse : String → Option Int) (sortOrder : SortOrder)
    (organizedData : List OrganizedEmailGroup) (g : OrganizedEmailGroup)
    (hg : g ∈ sortedData parse sortOrder organizedData)
    (i j : Nat) (hi : i < g.emails.length) (hj : j < g.emails.length)
    (hij : i < j) (hinvalid : parse ((g.emails.get ⟨i, hi⟩).date) = none) :
    parse ((g.emails.get ⟨j, hj⟩).date) = none := by
  have hpair := sortedData_emails_pairwise parse sortOrder organizedData g hg
  rw [List.pairwise_iff_getElem] at hpair
  have hle := hpair i j hi hj hij
  simp only [emailLe, emailCompare, decide_eq_true_eq] at hle
  rw [List.get_eq_getElem] at hinvalid ⊢
  rw [hinvalid] at hle
  rcases hj' : parse (g.emails[j].date) with _ | tj
  · rfl
  · rw [hj'] at hle
    simp at hle

/-- Ordering relation that claim C5 asserts between a group a and any group
b placed after it: an empty a forces b empty (empty groups sort last); an
unparsable first date of a forces the first date of a non-empty b
unparsable (valid-first groups sort before unparsable-first ones); two
parsable first dates are ordered according to the chosen order. -/
def groupInOrder (parse : String → Option Int) (sortOrder : SortOrder)
    (a b : OrganizedEmailGroup) : Prop :=
  (a.emails.head? = none → b.emails.head? = none) ∧
  (∀ ea, a.emails.head? = some ea → parse ea.date = none →
    ∀ eb, b.emails.head? = some eb → parse eb.date = none) ∧
  (∀ ea eb ta tb, a.emails.head? = some ea → b.emails.head? = some eb →
    parse ea.date = some ta → parse eb.date = some tb →
    match sortOrder with
    | SortOrder.newest => tb ≤ ta
    | SortOrder.oldest => ta ≤ tb)

/-- The Boolean group ordering implies the relational reading above. -/
theorem groupLe_imp_groupInOrder (parse : String → Option Int)
    (sortOrder : SortOrder) (a b : OrganizedEmailGroup)
    (h : groupLe parse sortOrder a b) : groupInOrder parse sortOrder a b := by
  refine ⟨?_, ?_, ?_⟩
  · intro ha
    rcases hb : b.emails.head? with _ | eb
    · rfl
    · exfalso
      simp only [groupLe, groupCompare, decide_eq_true_eq, ha, hb] at h
      omega
  · intro ea ha hpa eb hb
    rcases hpb : parse eb.date with _ | tb
    · rfl
    · exfalso
      simp only [groupLe, groupCompare, decide_eq_true_eq, ha, hb, hpa, hpb] at h
      omega
  · intro ea eb ta tb ha hb hpa hpb
    simp only [groupLe, groupCompare, decide_eq_true_eq, ha, hb, hpa, hpb] at h
    cases sortOrder <;> simp_all

/-- C5 (confirmed): for every result and sort order, the groups of the
sorted result are pairwise ordered by their first email after intra-group
sorting: according to the chosen order on parsable first dates, with
empty groups last and unparsable-first groups after every parsable-first
group. -/
theorem C5_groups_ordered_by_first_email (parse : String → Option Int)
    (sortOrder : SortOrder) (organizedData : List OrganizedEmailGroup) :
    (sortedData parse sortOrder organizedData).Pairwise
      (groupInOrder parse sortOrder) := by
  have hpair : (sortedData parse sortOrder organizedData).Pairwise
      (fun a b => groupLe parse sortOrder a b) := by
    simp only [sortedData]
    exact List.sorted_mergeSort (groupLe_trans parse sortOrder)
      (groupLe_total parse sortOrder) _
  exact hpair.imp (fun h => groupLe_imp_groupInOrder parse sortOrder _ _ h)

/-- Identity-relevant content of a group: its sender fields together with
the multiset of its emails. -/
def groupKey (g : OrganizedEmailGroup) : String × String × Multiset Email :=
  (g.senderName, g.senderEmail, (g.emails : Multiset Email))

/-- C6 (confirmed): sorting is a pure permutation.  The sorted result is,
up to reordering of groups, the input with each group left intact apart
from a reordering of its emails: the multiset of groups (each taken with
the multiset of its emails) is preserved, so no email or group is
discarded or duplicated. -/
theorem C6_sortedData_is_permutation (parse : String → Option Int)
    (sortOrder : SortOrder) (organizedData : List OrganizedEmailGroup) :
    ((sortedData parse sortOrder organizedData).map groupKey).Perm
      (organizedData.map groupKey) := by
  simp only [sortedData]
  refine ((List.mergeSort_perm _ _).map groupKey).trans ?_
  rw [List.map_map]
  have h : ∀ g ∈ organizedData, (groupKey ∘ sortGroupEmails parse sortOrder) g = groupKey g := by
    intro g _
    simp only [groupKey, sortGroupEmails, Function.comp_apply, Prod.mk.injEq, true_and]
    exact Multiset.coe_eq_coe.mpr (List.mergeSort_perm _ _)
  rw [List.map_congr_left h]

/-- Filtering out one index from an enumeration that starts above that
index keeps every element. -/
theorem filterIndexNe_enumFrom_of_lt {α : Type} :
    ∀ (l : List α) (n i : Nat), i < n →
      ((l.enumFrom n).filter (fun p => p.1 != i)).map Prod.snd = l := by
  intro l
  induction l with
  | nil => intro n i _; rfl
  | cons a t ih =>
      intro n i h
      have hne : (n != i) = true := by simp; omega
      simp only [List.enumFrom_cons, List.filter_cons, hne, if_pos, List.map_cons]
      rw [ih (n + 1) i (Nat.lt_succ_of_lt h)]

/-- Filtering out index i from an enumeration starting at n at most i
removes exactly the element at position i - n. -/
theorem filterIndexNe_enumFrom_of_ge {α : Type} :
    ∀ (l : List α) (n i : Nat), n ≤ i →
      ((l.enumFrom n).filter (fun p => p.1 != i)).map Prod.snd
        = l.take (i - n) ++ l.drop (i - n + 1) := by
  intro l
  induction l with
  | nil => intro n i _; simp
  | cons a t ih =>
      intro n i h
      rcases Nat.eq_or_lt_of_le h with heq | hlt
      · subst heq
        simp only [List.enumFrom_cons, List.filter_cons]
        rw [if_neg (by simp)]
        rw [filterIndexNe_enumFrom_of_lt t (n + 1) n (Nat.lt_succ_self n)]
        simp
      · obtain ⟨k, hk⟩ : ∃ k, i - n = k + 1 := ⟨i - n - 1, by omega⟩
        have hk' : i - (n + 1) = k := by omega
        simp only [List.enumFrom_cons, List.filter_cons]
        rw [if_pos (show (n != i) = true by simp; omega)]
        simp only [List.map_cons]
        rw [ih (n + 1) i (by omega), hk, hk']
        simp [List.take_succ_cons, List.drop_succ_cons]

/-- The removal step of handleDeleteEmail removes exactly the element at
the given position. -/
theorem filterIndexNe_eq_take_append_drop {α : Type} (l : List α) (i : Nat) :
    filterIndexNe l i = l.take i ++ l.drop (i + 1) := by
  have h := filterIndexNe_enumFrom_of_ge l 0 i (Nat.zero_le i)
  simpa [filterIndexNe, List.enum] using h

/-- In-range removal shortens the list by exactly one element. -/
theorem filterIndexNe_length_of_lt {α : Type} (l : List α) (i : Nat)
    (h : i < l.length) : (filterIndexNe l i).length + 1 = l.length := by
  rw [filterIndexNe_eq_take_append_drop]
  simp only [List.length_append, List.length_take, List.length_drop]
  omega

/-- Out-of-range removal keeps the list unchanged. -/
theorem filterIndexNe_of_le {α : Type} (l : List α) (i : Nat)
    (h : l.length ≤ i) : filterIndexNe l i = l := by
  rw [filterIndexNe_eq_take_append_drop, List.take_of_length_le h,
    List.drop_eq_nil_of_le (by omega), List.append_nil]

/-- C2 (confirmed): Delete removes the email at the given index from every
group whose senderEmail matches by string equality, then drops the groups
left empty.  First conjunct: the handler equals the map that cuts out
exactly position emailIndex of every matching group followed by the
empty-group filter.  Second conjunct: an in-range removal shrinks a
matching group by exactly one email.  Third conjunct: no group of the
displayed result is empty, so a group whose last email was deleted is
gone. -/
theorem C2_delete_removes_email_and_prunes
    (senderEmail : String) (emailIndex : Nat)
    (currentData : List OrganizedEmailGroup) :
    (handleDeleteEmail senderEmail emailIndex currentData
      = (currentData.map (fun group =>
          if group.senderEmail = senderEmail then
            { group with emails :=
                group.emails.take emailIndex ++ group.emails.drop (emailIndex + 1) }
          else group)).filter (fun group => 0 < group.emails.length))
    ∧ (∀ group ∈ currentData, group.senderEmail = senderEmail →
        emailIndex < group.emails.length →
        (filterIndexNe group.emails emailIndex).length + 1 = group.emails.length)
    ∧ (∀ group ∈ handleDeleteEmail senderEmail emailIndex currentData,
        group.emails ≠ []) := by
  refine ⟨?_, ?_, ?_⟩
  · unfold handleDeleteEmail
    congr 1
    apply List.map_congr_left
    intro g _
    by_cases hg : g.senderEmail = senderEmail
    · rw [if_pos hg, if_pos hg, filterIndexNe_eq_take_append_drop]
    · rw [if_neg hg, if_neg hg]
  · intro g _ _ hlt
    exact filterIndexNe_length_of_lt g.emails emailIndex hlt
  · intro g hgmem
    have := List.of_mem_filter hgmem
    simp only [decide_eq_true_eq] at this
    exact List.length_pos.mp this

/-- C7 amended (the no-op law needs every group non-empty): deleting with a
senderEmail that matches the senderEmail of no group returns the result
unchanged, provided no group of the result is already empty.  Without that
proviso the trailing empty-group filter of the handler removes a
pre-existing empty group even though nothing matched. -/
theorem C7_delete_absent_sender_is_noop
    (senderEmail : String) (emailIndex : Nat)
    (currentData : List OrganizedEmailGroup)
    (habsent : ∀ g ∈ currentData, g.senderEmail ≠ senderEmail)
    (hnonempty : ∀ g ∈ currentData, g.emails ≠ []) :
    handleDeleteEmail senderEmail emailIndex currentData = currentData := by
  induction currentData with
  | nil => rfl
  | cons g t ih =>
      have h1 : g.senderEmail ≠ senderEmail := habsent g (List.mem_cons_self g t)
      have h3 : (decide (0 < g.emails.length)) = true := by
        simp [List.length_pos.mpr (hnonempty g (List.mem_cons_self g t))]
      have ih' := ih (fun g' hg' => habsent g' (List.mem_cons_of_mem g hg'))
        (fun g' hg' => hnonempty g' (List.mem_cons_of_mem g hg'))
      simp only [handleDeleteEmail, List.map_cons, List.filter_cons] at ih' ⊢
      rw [if_neg h1, h3]
      simp only [if_pos, ih']

/-- Group with no emails, witnessing where the literal no-op law fails. -/
def emptyGroup : OrganizedEmailGroup :=
  { senderName := "Eve", senderEmail := "e@x.com", emails := [] }

/-- C7 counterexample: on a result holding one group with zero emails,
deleting with a senderEmail that matches no group does not return an
equivalent result: the empty group is dropped by the handler even though
nothing matched. -/
theorem C7_counterexample_empty_group_dropped :
    emptyGroup.senderEmail ≠ "absent@y.com" ∧
    handleDeleteEmail "absent@y.com" 0 [emptyGroup] ≠ [emptyGroup] := by
  decide

/-- C10 amended (for groups that are non-empty): with an index that is out
of range for every matching group, Delete is total and removes nothing —
it returns the data with only the standing empty-group filter applied, so
every non-empty group (matching or not) survives with its email sequence
unchanged; a matching group that was already empty is still dropped. -/
theorem C10_delete_out_of_range_keeps_groups
    (senderEmail : String) (emailIndex : Nat)
    (currentData : List OrganizedEmailGroup)
    (hout : ∀ g ∈ currentData, g.senderEmail = senderEmail →
      g.emails.length ≤ emailIndex) :
    handleDeleteEmail senderEmail emailIndex currentData
      = currentData.filter (fun g => 0 < g.emails.length) := by
  induction currentData with
  | nil => rfl
  | cons g t ih =>
      have ih' := ih (fun g' hg' => hout g' (List.mem_cons_of_mem g hg'))
      have hhead : (if g.senderEmail = senderEmail then
          { g with emails := filterIndexNe g.emails emailIndex } else g) = g := by
        by_cases hg : g.senderEmail = senderEmail
        · rw [if_pos hg,
            filterIndexNe_of_le g.emails emailIndex (hout g (List.mem_cons_self g t) hg)]
        · rw [if_neg hg]
      simp only [handleDeleteEmail, List.map_cons, List.filter_cons] at ih' ⊢
      rw [hhead, ih']

/-- C10 counterexample: an already-empty matching group has every index out
of range, yet Delete does not return that group with its email sequence
unchanged — the empty-group filter drops it from the result. -/
theorem C10_counterexample_empty_matching_group :
    emptyGroup.senderEmail = "e@x.com" ∧
    emptyGroup.emails.length ≤ 0 ∧
    emptyGroup ∉ handleDeleteEmail "e@x.com" 0 [emptyGroup] := by
  decide

/-- Group transformation that reverses the email sequence, used to state
the reversal law of claim C3. -/
def reverseEmailsInGroup (g : OrganizedEmailGroup) : OrganizedEmailGroup :=
  { g with emails := g.emails.reverse }

/-- Concrete date parser for counterexamples and witnesses: four parsable
date strings with fixed timestamps, everything else unparsable. -/
def parseFixed : String → Option Int := fun s =>
  if s = "2024-07-10" then some 10
  else if s = "2024-07-01" then some 1
  else if s = "2024-07-05" then some 5
  else if s = "2024-07-04" then some 4
  else none

/-- Group with two parsable dates at timestamps 10 and 1. -/
def groupA : OrganizedEmailGroup :=
  { senderName := "Ann", senderEmail := "a@x.com",
    emails := [{ subject := "s1", date := "2024-07-10", summary := "m1" },
               { subject := "s2", date := "2024-07-01", summary := "m2" }] }

/-- Group with two parsable dates at timestamps 5 and 4. -/
def groupB : OrganizedEmailGroup :=
  { senderName := "Bob", senderEmail := "b@y.com",
    emails := [{ subject := "s3", date := "2024-07-05", summary := "m3" },
               { subject := "s4", date := "2024-07-04", summary := "m4" }] }

/-- Two-group result with all dates parsable and pairwise distinct. -/
def dataAB : List OrganizedEmailGroup := [groupA, groupB]

/-- C3 counterexample: on a result where every date parses, sorting by
oldest is not the groupwise-email reversal plus group reversal of sorting
by newest.  Here newest yields the groups a@x.com (10, 1) then b@y.com
(5, 4) and oldest yields a@x.com (1, 10) then b@y.com (4, 5): the group
order is the same, not reversed, because groups are keyed under newest by
their maximal email but under oldest by their minimal email. -/
theorem C3_counterexample_group_order_not_reversed :
    (∀ g ∈ dataAB, ∀ e ∈ g.emails, (parseFixed e.date).isSome) ∧
    sortedData parseFixed SortOrder.oldest dataAB
      ≠ ((sortedData parseFixed SortOrder.newest dataAB).map
          reverseEmailsInGroup).reverse := by
  constructor
  · decide
  · simp only [dataAB, groupA, groupB, sortedData, sortGroupEmails,
      reverseEmailsInGroup, List.map_cons, List.map_nil]
    simp [List.mergeSort, emailLe, emailCompare, groupLe, groupCompare, parseFixed]
    intro h
    exact absurd h (by decide)

/-- Millisecond timestamp of an email under a parser, defaulting to 0;
used only on emails whose date is known to parse. -/
def timeKey (parse : String → Option Int) (e : Email) : Int :=
  (parse e.date).getD 0

/-- C3 amended: when every date of a group parses and the parsed times
within the group are pairwise distinct, the intra-group email order
produced for oldest is the exact reverse of the one produced for newest.
The inter-group reversal asserted by the claim fails (see the
counterexample), and with tied timestamps the intra-group orders agree
instead of reversing, because the sort is stable. -/
theorem C3_amended_intra_group_reversal
    (parse : String → Option Int) (group : OrganizedEmailGroup)
    (hvalid : ∀ e ∈ group.emails, (parse e.date).isSome)
    (hdistinct : group.emails.Pairwise
      (fun a b => timeKey parse a ≠ timeKey parse b)) :
    (sortGroupEmails parse SortOrder.oldest group).emails
      = ((sortGroupEmails parse SortOrder.newest group).emails).reverse := by
  simp only [sortGroupEmails]
  set l := group.emails with hl
  have po : List.Perm (l.mergeSort (emailLe parse SortOrder.oldest)) l :=
    List.mergeSort_perm l _
  have pn : List.Perm (l.mergeSort (emailLe parse SortOrder.newest)) l :=
    List.mergeSort_perm l _
  have hvo : ∀ e ∈ l.mergeSort (emailLe parse SortOrder.oldest),
      (parse e.date).isSome := fun e he => hvalid e (List.mem_mergeSort.mp he)
  have hvn : ∀ e ∈ l.mergeSort (emailLe parse SortOrder.newest),
      (parse e.date).isSome := fun e he => hvalid e (List.mem_mergeSort.mp he)
  have hsymm : ∀ {x y : Email}, timeKey parse x ≠ timeKey parse y →
      timeKey parse y ≠ timeKey parse x := fun h => h.symm
  have hdo := (po.pairwise_iff hsymm).mpr hdistinct
  have hdn := (pn.pairwise_iff hsymm).mpr hdistinct
  have so := List.sorted_mergeSort (emailLe_trans parse SortOrder.oldest)
    (emailLe_total parse SortOrder.oldest) l
  have sn := List.sorted_mergeSort (emailLe_trans parse SortOrder.newest)
    (emailLe_total parse SortOrder.newest) l
  have so' : (l.mergeSort (emailLe parse SortOrder.oldest)).Pairwise
      (fun a b => timeKey parse a < timeKey parse b) := by
    refine List.Pairwise.imp_of_mem ?_ (so.and hdo)
    intro a b ha hb hab
    obtain ⟨h1, h2⟩ := hab
    obtain ⟨ta, hta⟩ := Option.isSome_iff_exists.mp (hvo a ha)
    obtain ⟨tb, htb⟩ := Option.isSome_iff_exists.mp (hvo b hb)
    simp only [emailLe, emailCompare, decide_eq_true_eq, hta, htb] at h1
    simp only [timeKey, hta, htb, Option.getD_some] at h2 ⊢
    omega
  have sn' : (l.mergeSort (emailLe parse SortOrder.newest)).Pairwise
      (fun a b => timeKey parse b < timeKey parse a) := by
    refine List.Pairwise.imp_of_mem ?_ (sn.and hdn)
    intro a b ha hb hab
    obtain ⟨h1, h2⟩ := hab
    obtain ⟨ta, hta⟩ := Option.isSome_iff_exists.mp (hvn a ha)
    obtain ⟨tb, htb⟩ := Option.isSome_iff_exists.mp (hvn b hb)
    simp only [emailLe, emailCompare, decide_eq_true_eq, hta, htb] at h1
    simp only [timeKey, hta, htb, Option.getD_some] at h2 ⊢
    omega
  have srev : ((l.mergeSort (emailLe parse SortOrder.newest)).reverse).Pairwise
      (fun a b => timeKey parse a < timeKey parse b) :=
    List.pairwise_reverse.mpr sn'
  have pno : List.Perm (l.mergeSort (emailLe parse SortOrder.oldest))
      ((l.mergeSort (emailLe parse SortOrder.newest)).reverse) :=
    po.trans (pn.symm.trans (List.reverse_perm _).symm)
  haveI : IsAntisymm Email (fun a b => timeKey parse a < timeKey parse b) :=
    ⟨fun a b h1 h2 => absurd h2 (not_lt.mpr h1.le)⟩
  exact List.eq_of_perm_of_sorted pno so' srev

/-- C8 (confirmed): with the model-access credential absent from the
environment (and hence no client ever cached), the Extraction Contract
fails with the configuration message, performs zero outbound calls (so it
fails before any network call and does not retry), and that message is
distinct from the generic runtime-failure message. -/
theorem C8_missing_credential_fails_before_call
    (callOutcome : Except String String) (parseJson : String → Option Json)
    (jsonSyntaxErrorMessage : String) :
    organizeEmails none none callOutcome parseJson jsonSyntaxErrorMessage
      = (Except.error aiServiceErrorMessage, 0)
    ∧ aiServiceErrorMessage ≠ genericFailureMessage := by
  constructor
  · have hpre : messageStartsWith aiServiceErrorMessage "AI Service Error:" = true := by
      decide
    simp only [organizeEmails, organizeEmailsTryBody, getAiClient, hpre, if_pos]
  · decide

/-- C9 (confirmed): every runtime failure of the Extraction Contract — a
transport or model failure of the call itself, a response that does not
parse as JSON, and a response that parses to a non-array — surfaces as the
same single generic user-facing message, and no result is returned.  The
transport message and the JSON SyntaxError message are assumed not to
start with the reserved configuration-error marker, which is how the catch
clause tells its own configuration error apart. -/
theorem C9_runtime_failures_share_generic_message
    (cachedAi : Option AiClient) (key : String) (hkey : key ≠ "")
    (parseJson : String → Option Json) (jsonSyntaxErrorMessage : String)
    (hsyn : messageStartsWith jsonSyntaxErrorMessage "AI Service Error:" = false) :
    (∀ transportMsg,
      messageStartsWith transportMsg "AI Service Error:" = false →
      organizeEmails cachedAi (some key) (Except.error transportMsg) parseJson
          jsonSyntaxErrorMessage
        = (Except.error genericFailureMessage, 1)) ∧
    (∀ text, parseJson text.trim = none →
      organizeEmails cachedAi (some key) (Except.ok text) parseJson
          jsonSyntaxErrorMessage
        = (Except.error genericFailureMessage, 1)) ∧
    (∀ text j, parseJson text.trim = some j → (∀ es, j ≠ Json.arr es) →
      organizeEmails cachedAi (some key) (Except.ok text) parseJson
          jsonSyntaxErrorMessage
        = (Except.error genericFailureMessage, 1)) := by
  have hclient : ∃ c, getAiClient cachedAi (some key) = Except.ok c := by
    cases cachedAi with
    | none => exact ⟨AiClient.mk key, by simp [getAiClient, hkey]⟩
    | some c => exact ⟨c, rfl⟩
  obtain ⟨c, hc⟩ := hclient
  refine ⟨?_, ?_, ?_⟩
  · intro transportMsg hmsg
    simp [organizeEmails, organizeEmailsTryBody, hc, hmsg]
  · intro text hparse
    simp [organizeEmails, organizeEmailsTryBody, hc, hparse, hsyn]
  · intro text j hparse hnotarr
    simp only [organizeEmails, organizeEmailsTryBody, hc, hparse]
    cases j with
    | arr es => exact absurd rfl (hnotarr es)
    | null => simp [unexpectedFormatMessage, messageStartsWith]
    | bool b => simp [unexpectedFormatMessage, messageStartsWith]
    | num n => simp [unexpectedFormatMessage, messageStartsWith]
    | str s => simp [unexpectedFormatMessage, messageStartsWith]
    | obj fields => simp [unexpectedFormatMessage, messageStartsWith]

/-- C9 witness: a concrete transport failure with the credential present
produces the generic failure message and exactly one outbound call. -/
theorem C9_witness :
    organizeEmails none (some "k") (Except.error "network unreachable")
        (fun _ => none) "Unexpected token"
      = (Except.error genericFailureMessage, 1) :=
  (C9_runtime_failures_share_generic_message none "k" (by decide)
      (fun _ => none) "Unexpected token" (by decide)).1
    "network unreachable" (by decide)

/-- C4 counterexample: the client validates only the top-level array shape
of the parsed response, so a call whose response parses to an array holding
an object with no fields at all still succeeds, returning an element that
lacks every required field of the schema. -/
theorem C4_counterexample_success_without_required_fields :
    organizeEmails none (some "k") (Except.ok "[\x7b\x7d]")
        (fun _ => some (Json.arr [Json.obj []])) "Unexpected token"
      = (Except.ok [Json.obj []], 1)
    ∧ groupJsonHasRequired (Json.obj []) = false := by
  exact ⟨rfl, rfl⟩

/-- C4 amended: a successful Extraction Contract call yields exactly the
elements of the JSON array the response text parsed to (so the top-level
value is an array, possibly empty); the required fields of elements are
declared in the request schema (senderName, senderEmail, emails on groups;
subject, date, summary on emails) but are not validated client-side. -/
theorem C4_amended_success_is_array_schema_declared
    (cachedAi : Option AiClient) (apiKeyEnv : Option String)
    (callOutcome : Except String String) (parseJson : String → Option Json)
    (jsonSyntaxErrorMessage : String) (elements : List Json) (calls : Nat)
    (h : organizeEmails cachedAi apiKeyEnv callOutcome parseJson
        jsonSyntaxErrorMessage = (Except.ok elements, calls)) :
    (∃ text, callOutcome = Except.ok text
      ∧ parseJson text.trim = some (Json.arr elements))
    ∧ responseSchema = Schema.array groupItemSchema
    ∧ groupItemSchema.requiredFields = ["senderName", "senderEmail", "emails"]
    ∧ emailItemSchema.requiredFields = ["subject", "date", "summary"] := by
  refine ⟨?_, rfl, rfl, rfl⟩
  have htb : organizeEmailsTryBody cachedAi apiKeyEnv callOutcome parseJson
      jsonSyntaxErrorMessage = (Except.ok elements, calls) := by
    rcases h2 : organizeEmailsTryBody cachedAi apiKeyEnv callOutcome parseJson
        jsonSyntaxErrorMessage with ⟨res, n⟩
    rcases res with m | v
    · simp only [organizeEmails, h2] at h
      by_cases hm : messageStartsWith m "AI Service Error:" = true
      · rw [if_pos hm] at h
        exact absurd h (by simp)
      · rw [if_neg hm] at h
        exact absurd h (by simp)
    · simp only [organizeEmails, h2] at h
      simp only [Prod.mk.injEq, Except.ok.injEq] at h
      obtain ⟨rfl, rfl⟩ := h
      rfl
  simp only [organizeEmailsTryBody] at htb
  rcases hcl : getAiClient cachedAi apiKeyEnv with msg | client
  · simp only [hcl] at htb
    exact absurd htb (by simp)
  · simp only [hcl] at htb
    rcases callOutcome with m | text
    · exact absurd htb (by simp)
    · refine ⟨text, rfl, ?_⟩
      rcases hp : parseJson text.trim with _ | j
      · simp only [hp] at htb
        exact absurd htb (by simp)
      · simp only [hp] at htb
        cases j with
        | arr es =>
            simp only [Prod.mk.injEq, Except.ok.injEq] at htb
            rw [htb.1]
        | null => exact absurd htb (by simp)
        | bool b => exact absurd htb (by simp)
        | num n => exact absurd htb (by simp)
        | str s => exact absurd htb (by simp)
        | obj fields => exact absurd htb (by simp)

/-- C4 witness: a concrete successful call whose response parses to the
empty array satisfies the amended conclusion. -/
theorem C4_amended_witness :
    (∃ text, (Except.ok "[]" : Except String String) = Except.ok text
      ∧ (fun (_ : String) => some (Json.arr ([] : List Json))) text.trim
          = some (Json.arr ([] : List Json)))
    ∧ responseSchema = Schema.array groupItemSchema
    ∧ groupItemSchema.requiredFields = ["senderName", "senderEmail", "emails"]
    ∧ emailItemSchema.requiredFields = ["subject", "date", "summary"] :=
  C4_amended_success_is_array_schema_declared none (some "k") (Except.ok "[]")
    (fun _ => some (Json.arr [])) "Unexpected token" [] 1 rfl

/-- Group carrying one parsable date followed by two unparsable ones. -/
def groupInv : OrganizedEmailGroup :=
  { senderName := "Carl", senderEmail := "c@z.com",
    emails := [{ subject := "s5", date := "2024-07-05", summary := "m5" },
               { subject := "s6", date := "garbled", summary := "m6" },
               { subject := "s7", date := "also garbled", summary := "m7" }] }

/-- C1 witness: in the sorted singleton result holding groupInv, position 1
has an unparsable date, hence so does position 2. -/
theorem C1_witness :
    parseFixed ((groupInv.emails.get ⟨2, by decide⟩).date) = none :=
  C1_valid_dates_sort_before_unparsable parseFixed SortOrder.newest [groupInv]
    groupInv
    (by simp [sortedData, sortGroupEmails, List.mergeSort, emailLe, emailCompare,
      parseFixed, groupInv])
    1 2 (by decide) (by decide) (by decide) (by decide)

/-- C2 witness: deleting index 0 from the matching two-email group a@x.com
shrinks it by exactly one email. -/
theorem C2_witness :
    (filterIndexNe groupA.emails 0).length + 1 = groupA.emails.length :=
  (C2_delete_removes_email_and_prunes "a@x.com" 0 [groupA]).2.1 groupA
    (by decide) (by decide) (by decide)

/-- C3 witness: on the all-parsable, distinct-timestamp group a@x.com, the
oldest intra-group order is the reverse of the newest one. -/
theorem C3_amended_witness :
    (sortGroupEmails parseFixed SortOrder.oldest groupA).emails
      = ((sortGroupEmails parseFixed SortOrder.newest groupA).emails).reverse :=
  C3_amended_intra_group_reversal parseFixed groupA (by decide) (by decide)

/-- C7 witness: deleting with an absent sender from the all-non-empty
two-group result leaves it unchanged. -/
theorem C7_amended_witness :
    handleDeleteEmail "absent@y.com" 0 dataAB = dataAB :=
  C7_delete_absent_sender_is_noop "absent@y.com" 0 dataAB (by decide) (by decide)

/-- C10 witness: deleting at index 99, out of range for the matching group
a@x.com, keeps both non-empty groups unchanged. -/
theorem C10_amended_witness :
    handleDeleteEmail "a@x.com" 99 dataAB
      = dataAB.filter (fun g => 0 < g.emails.length) :=
  C10_delete_out_of_range_keeps_groups "a@x.com" 99 dataAB (by decide)

end MailOrganiser
